import Mathlib

/-!
# Verification of `MDAnalysis.analysis.hbonds.hbond_autocorrel`

Shallow embedding of the sampling-and-survival engine of
`package/MDAnalysis/analysis/hbonds/hbond_autocorrel.py`
(`HydrogenBondAutoCorrel`): the window planner (`_slice_traj`), the
per-window survival tracker (`_single_run`), the run aggregator (`run`),
and the constructor validation (`__init__`).

Modelling conventions:
* Geometry primitives (`distance_array`, `calc_bonds`, `calc_angles`) are
  external collaborators; a trajectory frame is abstracted to the two
  rational-valued functions they provide: hydrogen-acceptor distance and
  donor-hydrogen-acceptor angle, indexed by the positions of the hydrogen
  and acceptor in the fixed selections.  `distance_array` and `calc_bonds`
  compute the same hydrogen-acceptor distance, so they share one function.
* Machine floats are modelled by `ℚ`; a non-finite float (NaN/inf, as
  produced by numpy division by zero, which warns but does not raise) is
  modelled by `none` in `Option ℚ`.
* Python truthiness of `time_cut` (`if self.time_cut:`) is modelled
  explicitly: `None` and `0.0` are both falsy.
* The code preallocates the per-window result array at its nominal length
  (`numpy.zeros_like(numpy.arange(start, stop, skip))`) and `break`s out
  of the frame loop without truncating it; the embedding computes the
  recorded prefix (`rawCurve`) and pads it with the remaining zeros.
-/

/-- A trajectory frame, abstracted to the geometric queries the analysis
makes of it: `dist i j` is the hydrogen(i)-acceptor(j) distance
(`distance_array` / `calc_bonds`, periodic-box aware) and `ang i j` is the
donor(i)-hydrogen(i)-acceptor(j) angle (`calc_angles`; the donor index
always equals the hydrogen index because the selections are aligned). -/
structure Frame where
  dist : ℕ → ℕ → ℚ
  ang : ℕ → ℕ → ℚ

instance : Inhabited Frame := ⟨⟨fun _ _ => 0, fun _ _ => 0⟩⟩

/-- The two bond-lifetime definitions accepted by the analysis. -/
inductive BondType
  | continuous
  | intermittent
deriving DecidableEq

/-- Configuration of one `HydrogenBondAutoCorrel` analysis, restricted to
the fields `_single_run` reads: selection sizes, exclusion pairs, geometric
criteria, lifetime mode, forgiveness cutoff, frame time-step `dt`, the
sample stride `_skip` and the trajectory. -/
structure Cfg where
  nH : ℕ
  nA : ℕ
  exclusions : Option (List (ℕ × ℕ))
  d_crit : ℚ
  a_crit : ℚ
  bond_type : BondType
  time_cut : Option ℚ
  dt : ℚ
  skip : ℕ
  traj : List Frame

/-- All hydrogen-acceptor index pairs in row-major order, the order in
which `numpy.where` enumerates a 2-d boolean array. -/
def allPairs (nH nA : ℕ) : List (ℕ × ℕ) :=
  (List.range nH).flatMap (fun i => (List.range nA).map (fun j => (i, j)))

/-- The distance entry the seed scan sees for pair `p`: the exclusion
pairs are forced to `d_crit + 1.0` (`d[self.exclusions] = self.d_crit + 1.0`)
so that they fail the `< d_crit` test. -/
def effDist (cfg : Cfg) (fr : Frame) (p : ℕ × ℕ) : ℚ :=
  match cfg.exclusions with
  | none => fr.dist p.1 p.2
  | some ex => if p ∈ ex then cfg.d_crit + 1 else fr.dist p.1 p.2

/-- The seed population at a window start frame (lines 320-333 of the
source): all pairs whose (exclusion-adjusted) distance is `< d_crit`,
then, among those, the ones whose angle is `> a_crit`. -/
def seedPairs (cfg : Cfg) (fr : Frame) : List (ℕ × ℕ) :=
  ((allPairs cfg.nH cfg.nA).filter
      (fun p => decide (effDist cfg fr p < cfg.d_crit))).filter
    (fun p => decide (cfg.a_crit < fr.ang p.1 p.2))

/-- Whether a tracked pair satisfies both geometric criteria at a frame
(`winners = (d < self.d_crit) & (a > self.a_crit)`).  The per-frame scan
uses the raw distance: exclusions are applied only at the seed. -/
def isWinner (cfg : Cfg) (fr : Frame) (p : ℕ × ℕ) : Bool :=
  decide (fr.dist p.1 p.2 < cfg.d_crit) && decide (cfg.a_crit < fr.ang p.1 p.2)

/-- Python truthiness of the `time_cut` attribute (`if self.time_cut:`):
`None` and `0.0` are falsy, every other float is truthy. -/
def timeCutActive : Option ℚ → Bool
  | none => false
  | some q => decide (q ≠ 0)

/-- One mode-specific pruning step applied after recording a frame
(lines 354-370 of the source).  The tracked state is the Bond Candidate
Set paired with the Survival Counter, kept in lockstep as in the parallel
numpy arrays `hidx`, `aidx`, `count`:
* continuous: keep the winners;
* intermittent with a truthy `time_cut`: add `skip * dt` to each loser's
  counter, reset winners' counters to 0, then keep entries with
  counter `< time_cut`;
* intermittent otherwise: no change. -/
def pruneStep (cfg : Cfg) (fr : Frame) (st : List ((ℕ × ℕ) × ℚ)) :
    List ((ℕ × ℕ) × ℚ) :=
  match cfg.bond_type with
  | .continuous => st.filter (fun e => isWinner cfg fr e.1)
  | .intermittent =>
    if timeCutActive cfg.time_cut then
      let tc := cfg.time_cut.getD 0
      (st.map (fun e =>
          (e.1, if isWinner cfg fr e.1 then (0 : ℚ)
                else e.2 + (cfg.skip : ℚ) * cfg.dt))).filter
        (fun e => decide (e.2 < tc))
    else st

/-- The frame loop of `_single_run` (lines 343-373): for each sampled
frame record the number of tracked pairs satisfying both criteria
(`results[i] = winners.sum()`), prune according to the lifetime mode, and
stop once the tracked set is empty
(`if len(hidx) == 0: break`). Returns the recorded prefix. -/
def runLoop (cfg : Cfg) : List Frame → List ((ℕ × ℕ) × ℚ) → List ℕ
  | [], _ => []
  | fr :: rest, st =>
    let s := (st.filter (fun e => isWinner cfg fr e.1)).length
    let st' := pruneStep cfg fr st
    if st'.length = 0 then [s] else s :: runLoop cfg rest st'

/-- Number of sampled frames in a window: the length of
`numpy.arange(start, stop, skip)`, i.e. `⌈(stop-start)/skip⌉`. -/
def numSamples (start stop skip : ℕ) : ℕ := (stop - start + skip - 1) / skip

/-- The frames visited by `self.u.trajectory[start:stop:self._skip]`. -/
def windowFrames (cfg : Cfg) (start stop : ℕ) : List Frame :=
  (List.range' start (numSamples start stop cfg.skip) cfg.skip).map
    (fun i => cfg.traj.getD i default)

/-- The frame the seed population is computed from
(`self.u.trajectory[start]`). -/
def seedFrame (cfg : Cfg) (start : ℕ) : Frame := cfg.traj.getD start default

/-- The initial tracked state of a window: the seed pairs, each with
Survival Counter 0 (`count = numpy.zeros(nbonds)`). -/
def seedState (cfg : Cfg) (start : ℕ) : List ((ℕ × ℕ) × ℚ) :=
  (seedPairs cfg (seedFrame cfg start)).map (fun p => (p, (0 : ℚ)))

/-- The per-frame surviving-bond counts actually recorded by the loop of
`_single_run` before it ends (by exhausting the window or by the
empty-set `break`). -/
def rawCurve (cfg : Cfg) (start stop : ℕ) : List ℕ :=
  runLoop cfg (windowFrames cfg start stop) (seedState cfg start)

/-- The raw result array of `_single_run` before normalization: the code
preallocates `numpy.zeros` at the nominal window length and writes the
recorded counts into its prefix, so it equals the recorded prefix padded
with zeros. -/
def paddedCurve (cfg : Cfg) (start stop : ℕ) : List ℕ :=
  rawCurve cfg start stop ++
    List.replicate (numSamples start stop cfg.skip - (rawCurve cfg start stop).length) 0

/-- Normalization of one entry by the seed population size
(`results /= nbonds`): numpy float division by zero does not raise; it
produces a non-finite value (NaN for 0/0), modelled as `none`. -/
def normEntry (nbonds : ℕ) (c : ℕ) : Option ℚ :=
  if nbonds = 0 then none else some ((c : ℚ) / (nbonds : ℚ))

/-- `HydrogenBondAutoCorrel._single_run(start, stop)`: seed the candidate
set at `start`, track it over the sampled frames, and return the
normalized survival curve (always of the nominal window length). -/
def singleRun (cfg : Cfg) (start stop : ℕ) : List (Option ℚ) :=
  (paddedCurve cfg start stop).map
    (normEntry (seedPairs cfg (seedFrame cfg start)).length)

/-- `⌈a / b⌉` on naturals, the length of `numpy.arange(0, a, b)`. -/
def ceilDiv (a b : ℕ) : ℕ := (a + b - 1) / b

/-- `numpy.arange(start, stop, step)` for natural arguments. -/
def npArange (start stop step : ℕ) : List ℕ :=
  List.range' start (ceilDiv (stop - start) step) step

/-- The output of the Window Planner `_slice_traj`: the per-run start and
stop frames and the shared stride. -/
structure SlicePlan where
  starts : List ℕ
  stops : List ℕ
  skip : ℕ
deriving DecidableEq

/-- `HydrogenBondAutoCorrel._slice_traj` (lines 238-266), with
`reqFrames = int(sample_time / dt)` taken as an argument: clamp the run
count to the frame count, place the starts with
`numpy.arange(0, numframes, numframes / numruns)` (Python 2 integer
division), clamp the stops to the frame count, and derive the shared
stride `req_frames / nsamples` with fallback 1.  (The two out-of-domain
cases `numruns = 0` and `nsamples = 0` raise `ZeroDivisionError` in
Python; they are outside the stated claims.) -/
def sliceTraj (numframes nruns reqFrames nsamples : ℕ) : SlicePlan :=
  let numruns := if nruns > numframes then numframes else nruns
  let starts := npArange 0 numframes (numframes / numruns)
  let stops := starts.map (fun s => min (s + reqFrames) numframes)
  let skip0 := reqFrames / nsamples
  ⟨starts, stops, if skip0 = 0 then 1 else skip0⟩

/-- The bond-type validation of `__init__`
(`if self.bond_type not in ['continuous', 'intermittent']`). -/
def checkBondType (bt : String) : Except String Unit :=
  if bt = "continuous" ∨ bt = "intermittent" then Except.ok ()
  else Except.error "bond_type must be either continuous or intermittent"

/-- The validation chain of `HydrogenBondAutoCorrel.__init__`
(lines 204-219), on the lengths of the three selections, the lengths of
the optional exclusion arrays, and the bond type.  The selection test is
translated exactly as written in the source, where `not` binds tighter
than `and`: `(not (len(h) == len(a))) and (len(a) == len(d))`.
An `Except.error` models a raised `ValueError`: construction aborts and
no object is produced. -/
def hbInit (nh na nd : ℕ) (exclLens : Option (ℕ × ℕ)) (bt : String) :
    Except String Unit :=
  if (!(nh == na)) && (na == nd) then
    Except.error "All selections must have the same length"
  else
    match exclLens with
    | some el =>
      if !(el.1 == el.2) then
        Except.error "exclusion must be two arrays of identical length"
      else checkBondType bt
    | none => checkBondType bt

/-- The `solution` dictionary: raw results and time axis (filled by
`run`), fit coefficients, tau and estimate (filled by `solve`).  Curve
entries are `Option ℚ` because the raw curves may hold non-finite floats. -/
structure Solution where
  results : Option (List (Option ℚ))
  time : Option (List ℚ)
  fit : Option (List ℚ)
  tau : Option ℚ
  estimate : Option (List ℚ)
deriving DecidableEq

/-- numpy addition of two (possibly non-finite) floats. -/
def optAdd : Option ℚ → Option ℚ → Option ℚ
  | some x, some y => some (x + y)
  | _, _ => none

/-- `master_results[:len(res)] += res`: element-wise addition into the
prefix, leaving the remainder unchanged. -/
def sumIntoHead (master res : List (Option ℚ)) : List (Option ℚ) :=
  List.zipWith optAdd (master.take res.length) res ++ master.drop res.length

/-- `counter[:n] += 1.0`. -/
def countIntoHead (cnt : List ℚ) (n : ℕ) : List ℚ :=
  (cnt.take n).map (fun c => c + 1) ++ cnt.drop n

/-- numpy float division of an accumulated entry by a counter entry:
division by zero yields a non-finite value (`none`), not an exception. -/
def optDivF (a : Option ℚ) (c : ℚ) : Option ℚ :=
  match a with
  | none => none
  | some x => if c = 0 then none else some (x / c)

/-- The Run Aggregator body of `HydrogenBondAutoCorrel.run`
(lines 280-310): accumulate each window's curve into a sum array sized to
the first window, count contributions per index, divide element-wise and
build the time axis `arange(len) * dt * skip`. -/
def aggregate (cfg : Cfg) (starts stops : List ℕ) :
    List (Option ℚ) × List ℚ :=
  let len0 := numSamples (starts.getD 0 0) (stops.getD 0 0) cfg.skip
  let init : List (Option ℚ) := List.replicate len0 (some 0)
  let cnt0 : List ℚ := List.replicate len0 0
  let acc := (List.zip starts stops).foldl
    (fun (mc : List (Option ℚ) × List ℚ) sp =>
      let res := singleRun cfg sp.1 sp.2
      (sumIntoHead mc.1 res, countIntoHead mc.2 res.length))
    (init, cnt0)
  let results := List.zipWith optDivF acc.1 acc.2
  (results, (List.range results.length).map (fun i => (i : ℚ) * cfg.dt * cfg.skip))

/-- `HydrogenBondAutoCorrel.run(force)` (lines 268-310): if results
already exist and `force` is not set, return immediately; otherwise run
every planned window and store the averaged curve and the time axis in
the solution (the fit fields are untouched). -/
def hbRun (cfg : Cfg) (starts stops : List ℕ) (force : Bool)
    (sol : Solution) : Solution :=
  if sol.results.isSome && !force then sol
  else
    let rt := aggregate cfg starts stops
    { sol with results := some rt.1, time := some rt.2 }

/-- The same configuration run in `continuous` mode. -/
def contVariant (cfg : Cfg) : Cfg := { cfg with bond_type := BondType.continuous }

/-- The same configuration run in `intermittent` mode without a
forgiveness window. -/
def interVariant (cfg : Cfg) : Cfg :=
  { cfg with bond_type := BondType.intermittent, time_cut := none }

/-! ### Concrete instances used as counterexamples and witnesses -/

/-- A frame in which every pair satisfies both criteria of the example
configurations below (distance 1 < 3, angle 3 > 2). -/
def frOn : Frame := ⟨fun _ _ => 1, fun _ _ => 3⟩

/-- A frame in which every pair fails the distance criterion of the
example configurations below (distance 10). -/
def frOff : Frame := ⟨fun _ _ => 10, fun _ _ => 3⟩

/-- One hydrogen, one acceptor, continuous mode; the pair is bonded at
frame 0 and breaks at frame 1, emptying the tracked set two frames before
the stop frame of the window `[0, 4)`. -/
def c1Cfg : Cfg :=
  ⟨1, 1, none, 3, 2, BondType.continuous, none, 1, 1, [frOn, frOff, frOn, frOn]⟩

/-- Intermittent mode with forgiveness window `time_cut = 1` and
`skip * dt = 1`: one failed frame brings a counter exactly to the cutoff. -/
def c4xCfg : Cfg :=
  ⟨1, 1, none, 3, 2, BondType.intermittent, some 1, 1, 1, [frOff, frOff]⟩

/-- Intermittent mode with forgiveness window `time_cut = 2` and
`skip * dt = 1`: one failed frame leaves the counter strictly below the
cutoff. -/
def c4wCfg : Cfg :=
  ⟨1, 1, none, 3, 2, BondType.intermittent, some 2, 1, 1, [frOff, frOff]⟩

/-- Continuous mode with an empty seed population (no pair is bonded at
the start frame) over a two-sample window. -/
def c5xCfg : Cfg :=
  ⟨1, 1, none, 3, 2, BondType.continuous, none, 1, 1, [frOff, frOff]⟩

/-- Continuous mode with a one-pair seed that breaks at frame 1, over a
three-sample window. -/
def c5wCfg : Cfg :=
  ⟨1, 1, none, 3, 2, BondType.continuous, none, 1, 1, [frOn, frOff, frOn]⟩

/-- Continuous mode with a one-pair seed that stays bonded. -/
def c6wCfg : Cfg :=
  ⟨1, 1, none, 3, 2, BondType.continuous, none, 1, 1, [frOn, frOn]⟩

/-- Intermittent mode with an empty seed population over a three-sample
window. -/
def c7xCfg : Cfg :=
  ⟨1, 1, none, 3, 2, BondType.intermittent, none, 1, 1, [frOff, frOff, frOff]⟩

/-- Continuous mode with an empty seed population over a one-sample
window. -/
def c7wCfg : Cfg :=
  ⟨1, 1, none, 3, 2, BondType.continuous, none, 1, 1, [frOff]⟩

/-- A minimal configuration for exercising the `run` guard. -/
def c8Cfg : Cfg := ⟨0, 0, none, 3, 2, BondType.continuous, none, 1, 1, []⟩

/-- A solution whose raw results are already populated. -/
def c8Sol : Solution := ⟨some [], some [], none, none, none⟩

/-- A base configuration with an empty seed population, compared in its
continuous and intermittent variants. -/
def c9xCfg : Cfg :=
  ⟨1, 1, none, 3, 2, BondType.continuous, none, 1, 1, [frOff, frOff]⟩

/-- A base configuration whose one seed pair breaks at frame 1 and
reforms at frame 2, compared in its continuous and intermittent variants. -/
def c9wCfg : Cfg :=
  ⟨1, 1, none, 3, 2, BondType.continuous, none, 1, 1, [frOn, frOff, frOn]⟩

/-! ### General lemmas about the survival tracker -/

/-- The loop records at most one count per sampled frame. -/
theorem runLoop_length_le (cfg : Cfg) :
    ∀ (frames : List Frame) (st : List ((ℕ × ℕ) × ℚ)),
      (runLoop cfg frames st).length ≤ frames.length := by
  intro frames
  induction frames with
  | nil => intro st; simp [runLoop]
  | cons fr rest ih =>
    intro st
    simp only [runLoop]
    by_cases h : (pruneStep cfg fr st).length = 0
    · simp [h]
    · simp only [h, if_false, List.length_cons]
      exact Nat.succ_le_succ (ih _)

/-- The window visits exactly the nominal number of sampled frames. -/
theorem windowFrames_length (cfg : Cfg) (start stop : ℕ) :
    (windowFrames cfg start stop).length = numSamples start stop cfg.skip := by
  simp [windowFrames]

/-- The recorded prefix is at most the nominal window length. -/
theorem rawCurve_length_le (cfg : Cfg) (start stop : ℕ) :
    (rawCurve cfg start stop).length ≤ numSamples start stop cfg.skip := by
  have h := runLoop_length_le cfg (windowFrames cfg start stop) (seedState cfg start)
  rw [windowFrames_length] at h
  exact h

/-- The preallocated result array keeps its nominal length. -/
theorem paddedCurve_length (cfg : Cfg) (start stop : ℕ) :
    (paddedCurve cfg start stop).length = numSamples start stop cfg.skip := by
  have h := rawCurve_length_le cfg start stop
  simp only [paddedCurve, List.length_append, List.length_replicate]
  omega

/-- `_single_run` always returns a curve of the nominal window length. -/
theorem singleRun_length (cfg : Cfg) (start stop : ℕ) :
    (singleRun cfg start stop).length = numSamples start stop cfg.skip := by
  simp [singleRun, paddedCurve_length]

/-! ### C1 -/

/-- C1 (amended): when the tracked candidate set becomes empty before the
stop frame, `_single_run` stops iterating (the recorded prefix can be
shorter than the nominal window length), but the returned curve is NOT
truncated: `results` is preallocated at the nominal length
`⌈(stop-start)/stride⌉` and the unwritten tail stays zero, so the
returned sequence always has exactly the nominal length. -/
theorem c1_stop_not_truncated (cfg : Cfg) (start stop : ℕ) :
    (singleRun cfg start stop).length = numSamples start stop cfg.skip ∧
    (rawCurve cfg start stop).length ≤ numSamples start stop cfg.skip :=
  ⟨singleRun_length cfg start stop, rawCurve_length_le cfg start stop⟩

/-- C1 (counterexample): in `c1Cfg` the tracked set empties after the
second sampled frame of the window `[0, 4)` (only two counts are
recorded), yet the returned curve has the full nominal length 4 — it is
not strictly shorter, contradicting the claim. -/
theorem c1_counterexample :
    rawCurve c1Cfg 0 4 = [1, 0] ∧
    numSamples 0 4 c1Cfg.skip = 4 ∧
    (singleRun c1Cfg 0 4).length = 4 :=
  ⟨by decide, by decide, by decide⟩

/-! ### C2 -/

/-- C2 (code evaluation at the failing input): with hydrogens and
acceptors of length 2 but donors of length 3, `__init__` does NOT raise
-- the mismatched-length condition is parsed as
`(len(h) != len(a)) and (len(a) == len(d))`, which is false here -- while
a mismatch between hydrogens and acceptors (with acceptors matching
donors) does raise. -/
theorem c2_precedence_slip :
    hbInit 2 2 3 none "continuous" = Except.ok () ∧
    hbInit 2 3 3 none "continuous" =
      Except.error "All selections must have the same length" :=
  ⟨rfl, rfl⟩

/-! ### C3 -/

/-- C3 (counterexample): with 10 frames and 3 requested runs (no clamping
needed), the planner produces 4 start points `[0, 3, 6, 9]`, not exactly
3: `numpy.arange(0, 10, 10 // 3)` has `⌈10/3⌉ = 4` entries. -/
theorem c3_counterexample :
    (sliceTraj 10 3 5 5).starts = [0, 3, 6, 9] ∧
    (sliceTraj 10 3 5 5).stops = [5, 8, 10, 10] ∧
    (sliceTraj 10 3 5 5).starts.length ≠ 3 :=
  ⟨by decide, by decide, by decide⟩

/-- C3 (amended): writing `R' = min R F` for the clamped run count and
`s = ⌊F / R'⌋` for the spacing, the planner's start points are
`0, s, 2s, ...` covering `[0, F)` -- that is `⌈F / s⌉` triples, which is
at least `R'` but can exceed it (it equals `R'` only when `s` divides
into `F` at least `R'` times exactly); each stop is
`min(start + reqFrames, F)`. -/
theorem c3_windows (F R req S : ℕ) (hR : 1 ≤ R) (hF : 1 ≤ F) :
    (sliceTraj F R req S).starts = npArange 0 F (F / min R F) ∧
    min R F ≤ (sliceTraj F R req S).starts.length ∧
    (sliceTraj F R req S).stops =
      (sliceTraj F R req S).starts.map (fun s => min (s + req) F) := by
  have hmin : (if R > F then F else R) = min R F := by
    rcases le_or_lt R F with h | h
    · rw [if_neg (not_lt.mpr h), min_eq_left h]
    · rw [if_pos h, min_eq_right h.le]
  have hR' : 1 ≤ min R F := le_min hR hF
  have hR'F : min R F ≤ F := min_le_right R F
  have hstep : 1 ≤ F / min R F := (Nat.one_le_div_iff hR').mpr hR'F
  refine ⟨?_, ?_, ?_⟩
  · show npArange 0 F (F / (if R > F then F else R)) = _
    rw [hmin]
  · show min R F ≤ (npArange 0 F (F / (if R > F then F else R))).length
    rw [hmin]
    simp only [npArange, List.length_range', ceilDiv, Nat.sub_zero]
    have h1 : min R F ≤ F / (F / min R F) :=
      (Nat.le_div_iff_mul_le hstep).mpr
        (by calc min R F * (F / min R F) = F / min R F * min R F := Nat.mul_comm _ _
              _ ≤ F := Nat.div_mul_le_self F (min R F))
    have h2 : F / (F / min R F) ≤ (F + (F / min R F) - 1) / (F / min R F) :=
      Nat.div_le_div_right (by omega)
    omega
  · rfl

/-- C3 (witness): the amended planner description instantiated at 10
frames and 3 runs. -/
theorem c3_witness :
    (1 ≤ 3 ∧ 1 ≤ 10) ∧
    ((sliceTraj 10 3 5 5).starts = npArange 0 10 (10 / min 3 10) ∧
      min 3 10 ≤ (sliceTraj 10 3 5 5).starts.length ∧
      (sliceTraj 10 3 5 5).stops =
        (sliceTraj 10 3 5 5).starts.map (fun s => min (s + 5) 10)) :=
  ⟨⟨by decide, by decide⟩, c3_windows 10 3 5 5 (by decide) (by decide)⟩

/-! ### C4 -/

/-- C4 (counterexample): with `time_cut = 1` and `skip * dt = 1`, a
candidate that fails one frame reaches a counter exactly equal to
`time_cut` -- and is dropped by `hidx[count < self.time_cut]`, while the
claim says a candidate whose counter equals `time_cut` is kept. -/
theorem c4_counterexample :
    pruneStep c4xCfg frOff [((0, 0), 0)] = [] ∧
    (0 : ℚ) + (c4xCfg.skip : ℚ) * c4xCfg.dt = c4xCfg.time_cut.getD 0 := by
  constructor
  · norm_num [pruneStep, c4xCfg, timeCutActive, isWinner, frOff,
      List.filter_cons, Option.getD]
  · norm_num [c4xCfg]

/-- C4 (amended): in intermittent mode with a truthy forgiveness window
`time_cut`, each tracked frame updates every candidate's counter
(increment by `stride * dt` on geometric failure, reset to `0` on
success) and then keeps exactly the candidates whose updated counter is
STRICTLY below `time_cut`: a candidate is permanently dropped if and only
if its counter is greater than or equal to `time_cut`, so a counter that
equals `time_cut` exactly is dropped, not kept. -/
theorem c4_drop_at_cut (cfg : Cfg) (fr : Frame) (st : List ((ℕ × ℕ) × ℚ))
    (tc : ℚ) (hbt : cfg.bond_type = BondType.intermittent)
    (htc : cfg.time_cut = some tc) (h0 : tc ≠ 0) :
    ∀ e : (ℕ × ℕ) × ℚ,
      e ∈ pruneStep cfg fr st ↔
        ((∃ e₀ ∈ st,
            e = (e₀.1, if isWinner cfg fr e₀.1 then (0 : ℚ)
                       else e₀.2 + (cfg.skip : ℚ) * cfg.dt)) ∧
          e.2 < tc) := by
  intro e
  simp only [pruneStep, hbt, htc, timeCutActive, Option.getD_some]
  rw [if_pos (by simpa using h0)]
  simp only [List.mem_filter, List.mem_map, decide_eq_true_eq]
  constructor
  · rintro ⟨⟨e₀, he₀, rfl⟩, hlt⟩
    exact ⟨⟨e₀, he₀, rfl⟩, hlt⟩
  · rintro ⟨⟨e₀, he₀, rfl⟩, hlt⟩
    exact ⟨⟨e₀, he₀, rfl⟩, hlt⟩

/-- C4 (witness): the amended pruning rule instantiated at a concrete
one-candidate state with `time_cut = 2`, evaluated at the updated entry. -/
theorem c4_witness :
    c4wCfg.bond_type = BondType.intermittent ∧
    c4wCfg.time_cut = some 2 ∧ (2 : ℚ) ≠ 0 ∧
    ((((0, 0), (1 : ℚ)) ∈ pruneStep c4wCfg frOff [((0, 0), 0)]) ↔
      ((∃ e₀ ∈ [((0, 0), (0 : ℚ))],
          ((0, 0), (1 : ℚ)) =
            (e₀.1, if isWinner c4wCfg frOff e₀.1 then (0 : ℚ)
                   else e₀.2 + (c4wCfg.skip : ℚ) * c4wCfg.dt)) ∧
        ((0, 0), (1 : ℚ)).2 < 2)) :=
  ⟨rfl, rfl, by norm_num,
    c4_drop_at_cut c4wCfg frOff [((0, 0), 0)] 2 rfl rfl (by norm_num)
      ((0, 0), (1 : ℚ))⟩

/-! ### Continuous-mode structure lemmas -/

/-- Continuous pruning keeps exactly the winners of the frame. -/
theorem pruneStep_cont (cfg : Cfg) (hbt : cfg.bond_type = BondType.continuous)
    (fr : Frame) (st : List ((ℕ × ℕ) × ℚ)) :
    pruneStep cfg fr st = st.filter (fun e => isWinner cfg fr e.1) := by
  simp only [pruneStep, hbt]

/-- In continuous mode every recorded count is bounded by the size of the
tracked set the loop started from. -/
theorem cont_runLoop_mem_le (cfg : Cfg)
    (hbt : cfg.bond_type = BondType.continuous) :
    ∀ (frames : List Frame) (st : List ((ℕ × ℕ) × ℚ)),
      ∀ x ∈ runLoop cfg frames st, x ≤ st.length := by
  intro frames
  induction frames with
  | nil => intro st x hx; simp [runLoop] at hx
  | cons fr rest ih =>
    intro st x hx
    simp only [runLoop] at hx
    by_cases h : (pruneStep cfg fr st).length = 0
    · rw [if_pos h] at hx
      rw [List.mem_singleton] at hx
      subst hx
      exact List.length_filter_le _ st
    · rw [if_neg h] at hx
      rcases List.mem_cons.mp hx with rfl | hx'
      · exact List.length_filter_le _ st
      · have hle := ih (pruneStep cfg fr st) x hx'
        rw [pruneStep_cont cfg hbt] at hle
        exact hle.trans (List.length_filter_le _ st)

/-- In continuous mode the recorded counts are non-increasing. -/
theorem cont_runLoop_chain (cfg : Cfg)
    (hbt : cfg.bond_type = BondType.continuous) :
    ∀ (frames : List Frame) (st : List ((ℕ × ℕ) × ℚ)),
      (runLoop cfg frames st).Chain' (fun a b => b ≤ a) := by
  intro frames
  induction frames with
  | nil => intro st; simp [runLoop]
  | cons fr rest ih =>
    intro st
    simp only [runLoop]
    by_cases h : (pruneStep cfg fr st).length = 0
    · rw [if_pos h]; exact List.chain'_singleton _
    · rw [if_neg h]
      refine List.chain'_cons'.mpr ⟨?_, ih _⟩
      intro y hy
      have hmem : y ∈ runLoop cfg rest (pruneStep cfg fr st) :=
        List.mem_of_mem_head? hy
      have hle := cont_runLoop_mem_le cfg hbt rest _ y hmem
      rw [pruneStep_cont cfg hbt] at hle
      exact hle

/-- Trailing zeros keep a non-increasing chain non-increasing. -/
theorem chain'_replicate_zero_le (n : ℕ) :
    (List.replicate n (0 : ℕ)).Chain' (fun a b => b ≤ a) := by
  induction n with
  | zero => simp
  | succ k ih =>
    rw [List.replicate_succ]
    refine List.chain'_cons'.mpr ⟨?_, ih⟩
    intro y hy
    have hmem := List.mem_of_mem_head? hy
    simp [List.eq_of_mem_replicate hmem]

/-! ### C5 -/

/-- C5 (counterexample): in continuous mode with an empty seed population
the normalized curve entries are the non-finite numpy value `0/0`
(modelled `none`) -- not values in `[0, 1]` -- so the claim fails for a
window whose seed is empty. -/
theorem c5_counterexample :
    c5xCfg.bond_type = BondType.continuous ∧
    singleRun c5xCfg 0 2 = [none, none] :=
  ⟨rfl, by decide⟩

/-- C5 (amended): for every continuous-mode window whose seed population
is nonempty, the normalized survival curve consists of rational values in
`[0, 1]` and is monotonically non-increasing in index. -/
theorem c5_cont_monotone (cfg : Cfg) (start stop : ℕ)
    (hbt : cfg.bond_type = BondType.continuous)
    (hn : (seedPairs cfg (seedFrame cfg start)).length ≠ 0) :
    (∀ x ∈ singleRun cfg start stop, ∃ q : ℚ, x = some q ∧ 0 ≤ q ∧ q ≤ 1) ∧
    (singleRun cfg start stop).Chain'
      (fun a b => ∃ p q : ℚ, a = some p ∧ b = some q ∧ q ≤ p) := by
  set n := (seedPairs cfg (seedFrame cfg start)).length with hn_def
  have hnpos : 0 < (n : ℚ) := by
    exact_mod_cast Nat.pos_of_ne_zero hn
  have hseedlen : (seedState cfg start).length = n := by
    simp [seedState, hn_def]
  have hmemle : ∀ c ∈ paddedCurve cfg start stop, c ≤ n := by
    intro c hc
    rcases List.mem_append.mp hc with h | h
    · have hle := cont_runLoop_mem_le cfg hbt (windowFrames cfg start stop)
        (seedState cfg start) c h
      rwa [hseedlen] at hle
    · have h0 := List.eq_of_mem_replicate h
      omega
  constructor
  · intro x hx
    rcases List.mem_map.mp hx with ⟨c, hc, rfl⟩
    refine ⟨(c : ℚ) / (n : ℚ), by simp [normEntry, hn], by positivity, ?_⟩
    rw [div_le_one hnpos]
    exact_mod_cast hmemle c hc
  · have hchain : (paddedCurve cfg start stop).Chain' (fun a b => b ≤ a) := by
      rw [paddedCurve, List.chain'_append]
      refine ⟨cont_runLoop_chain cfg hbt _ _, chain'_replicate_zero_le _, ?_⟩
      intro x _ y hy
      have hmem := List.mem_of_mem_head? hy
      simp [List.eq_of_mem_replicate hmem]
    rw [singleRun, List.chain'_map]
    refine hchain.imp ?_
    intro a b hba
    refine ⟨(a : ℚ) / (n : ℚ), (b : ℚ) / (n : ℚ),
      by simp [normEntry, hn], by simp [normEntry, hn], ?_⟩
    gcongr

/-- C5 (witness): the amended statement instantiated on a three-frame
continuous window with a one-pair seed. -/
theorem c5_witness :
    c5wCfg.bond_type = BondType.continuous ∧
    (seedPairs c5wCfg (seedFrame c5wCfg 0)).length ≠ 0 ∧
    ((∀ x ∈ singleRun c5wCfg 0 3, ∃ q : ℚ, x = some q ∧ 0 ≤ q ∧ q ≤ 1) ∧
      (singleRun c5wCfg 0 3).Chain'
        (fun a b => ∃ p q : ℚ, a = some p ∧ b = some q ∧ q ≤ p)) :=
  ⟨rfl, by decide, c5_cont_monotone c5wCfg 0 3 rfl (by decide)⟩

/-! ### C6 -/

/-- A pair selected into the seed population satisfies both geometric
criteria at the seed frame: it passed the angle filter directly, and it
passed the exclusion-adjusted distance filter, which exclusion pairs
cannot (their adjusted distance is `d_crit + 1`). -/
theorem seed_mem_winner (cfg : Cfg) (fr : Frame) (p : ℕ × ℕ)
    (hp : p ∈ seedPairs cfg fr) : isWinner cfg fr p = true := by
  have hp1 := (List.mem_filter.mp hp).1
  have hang := (List.mem_filter.mp hp).2
  have hdist := (List.mem_filter.mp hp1).2
  have h1 : effDist cfg fr p < cfg.d_crit := of_decide_eq_true hdist
  rw [isWinner, Bool.and_eq_true]
  refine ⟨?_, hang⟩
  rw [effDist] at h1
  cases hex : cfg.exclusions with
  | none =>
    simp only [hex] at h1
    exact decide_eq_true h1
  | some ex =>
    simp only [hex] at h1
    by_cases hpe : p ∈ ex
    · rw [if_pos hpe] at h1
      exact absurd h1 (by linarith)
    · rw [if_neg hpe] at h1
      exact decide_eq_true h1

/-- C6: for every window whose seed population is nonempty (and which
samples at least one frame), the normalized survival curve at offset 0 is
exactly 1: at the start frame every seed pair satisfies its own selection
criteria, so `results[0] = nbonds` and normalization gives
`nbonds / nbonds = 1`. -/
theorem c6_offset0_one (cfg : Cfg) (start stop : ℕ)
    (hn : (seedPairs cfg (seedFrame cfg start)).length ≠ 0)
    (hK : 1 ≤ numSamples start stop cfg.skip) :
    (singleRun cfg start stop).head? = some (some 1) := by
  obtain ⟨k, hk⟩ : ∃ k, numSamples start stop cfg.skip = k + 1 :=
    ⟨numSamples start stop cfg.skip - 1, by omega⟩
  have hwf : windowFrames cfg start stop =
      seedFrame cfg start ::
        (List.range' (start + cfg.skip) k cfg.skip).map
          (fun i => cfg.traj.getD i default) := by
    rw [windowFrames, hk]
    rfl
  have hfilter : (seedState cfg start).filter
      (fun e => isWinner cfg (seedFrame cfg start) e.1) = seedState cfg start := by
    refine List.filter_eq_self.mpr ?_
    intro e he
    rcases List.mem_map.mp he with ⟨p, hp, rfl⟩
    exact seed_mem_winner cfg _ p hp
  have hraw : ∃ t, rawCurve cfg start stop = (seedState cfg start).length :: t := by
    rw [rawCurve, hwf]
    simp only [runLoop, hfilter]
    by_cases h : (pruneStep cfg (seedFrame cfg start) (seedState cfg start)).length = 0
    · exact ⟨[], by rw [if_pos h]⟩
    · exact ⟨_, by rw [if_neg h]⟩
  obtain ⟨t, ht⟩ := hraw
  have hlen : (seedState cfg start).length =
      (seedPairs cfg (seedFrame cfg start)).length := by
    simp [seedState]
  rw [singleRun, paddedCurve, ht, hlen]
  simp only [List.cons_append, List.map_cons, List.head?_cons]
  rw [normEntry, if_neg hn]
  rw [div_self (by exact_mod_cast hn)]

/-- C6 (witness): the offset-0 property instantiated on a two-frame
window with a one-pair seed. -/
theorem c6_witness :
    (seedPairs c6wCfg (seedFrame c6wCfg 0)).length ≠ 0 ∧
    1 ≤ numSamples 0 2 c6wCfg.skip ∧
    (singleRun c6wCfg 0 2).head? = some (some 1) :=
  ⟨by decide, by decide, c6_offset0_one c6wCfg 0 2 (by decide) (by decide)⟩

/-! ### C7 -/

/-- C7 (counterexample): a window whose seed population is empty returns
a full-length curve of non-finite values (numpy `0/0`, modelled `none`),
not an all-zero curve and not a curve contributing only an index-0 entry:
the division `results /= nbonds` is not guarded. -/
theorem c7_counterexample :
    (seedPairs c7xCfg (seedFrame c7xCfg 0)).length = 0 ∧
    singleRun c7xCfg 0 3 = [none, none, none] :=
  ⟨by decide, by decide⟩

/-- C7 (amended): for every window whose seed population is empty, the
run completes and returns a curve rather than raising -- numpy division
by zero warns but does not raise -- but the division by the initial bond
count is NOT guarded: every entry of the returned nominal-length curve is
the non-finite value `0/0` (modelled `none`), not zero. -/
theorem c7_empty_seed_nan (cfg : Cfg) (start stop : ℕ)
    (hn : (seedPairs cfg (seedFrame cfg start)).length = 0) :
    singleRun cfg start stop =
      List.replicate (numSamples start stop cfg.skip) none := by
  refine List.eq_replicate_iff.mpr ⟨singleRun_length cfg start stop, ?_⟩
  intro b hb
  rcases List.mem_map.mp hb with ⟨c, _, rfl⟩
  simp [normEntry, hn]

/-- C7 (witness): the amended statement instantiated on a one-frame
window with an empty seed. -/
theorem c7_witness :
    (seedPairs c7wCfg (seedFrame c7wCfg 0)).length = 0 ∧
    singleRun c7wCfg 0 1 = List.replicate (numSamples 0 1 c7wCfg.skip) none :=
  ⟨by decide, c7_empty_seed_nan c7wCfg 0 1 (by decide)⟩

/-! ### C8 -/

/-- C8: when the solution's results are already populated, `run` with
`force = False` returns immediately and leaves the entire solution --
results, time, fit, tau, estimate -- unchanged; and a second
non-forcing call after any call is always a no-op. -/
theorem c8_run_noop (cfg : Cfg) (starts stops : List ℕ) (force : Bool)
    (sol : Solution) (r : List (Option ℚ)) (h : sol.results = some r) :
    hbRun cfg starts stops false sol = sol ∧
    hbRun cfg starts stops false (hbRun cfg starts stops force sol) =
      hbRun cfg starts stops force sol := by
  have h1 : hbRun cfg starts stops false sol = sol := by
    rw [hbRun, if_pos (by simp [h])]
  refine ⟨h1, ?_⟩
  by_cases hg : (sol.results.isSome && !force) = true
  · rw [show hbRun cfg starts stops force sol = sol from by rw [hbRun, if_pos hg]]
    exact h1
  · have hrw : hbRun cfg starts stops force sol =
        { sol with results := some (aggregate cfg starts stops).1,
                   time := some (aggregate cfg starts stops).2 } := by
      rw [hbRun, if_neg hg]
    rw [hrw, hbRun, if_pos (by simp)]

/-- C8 (witness): the no-op property instantiated on a solution with
populated results. -/
theorem c8_witness :
    c8Sol.results = some [] ∧
    (hbRun c8Cfg [] [] false c8Sol = c8Sol ∧
      hbRun c8Cfg [] [] false (hbRun c8Cfg [] [] true c8Sol) =
        hbRun c8Cfg [] [] true c8Sol) :=
  ⟨rfl, c8_run_noop c8Cfg [] [] true c8Sol [] rfl⟩

/-! ### Lemmas comparing the two lifetime modes -/

/-- Continuous-variant pruning is the winners filter. -/
theorem pruneStep_contVariant (cfg : Cfg) (fr : Frame)
    (st : List ((ℕ × ℕ) × ℚ)) :
    pruneStep (contVariant cfg) fr st =
      st.filter (fun e => isWinner cfg fr e.1) := rfl

/-- Intermittent-variant pruning (no forgiveness window) never changes
the tracked set. -/
theorem pruneStep_interVariant (cfg : Cfg) (fr : Frame)
    (st : List ((ℕ × ℕ) × ℚ)) :
    pruneStep (interVariant cfg) fr st = st := rfl

/-- Reading an index beyond the recorded prefix of the preallocated
array gives the zero it was initialized with. -/
theorem getD_append_replicate_zero (l : List ℕ) (m i : ℕ) :
    (l ++ List.replicate m 0).getD i 0 = l.getD i 0 := by
  induction l generalizing i with
  | nil =>
    simp only [List.nil_append, List.getD_nil]
    induction m generalizing i with
    | zero => simp
    | succ k ih =>
      cases i with
      | zero => simp [List.replicate_succ]
      | succ j => simp only [List.replicate_succ, List.getD_cons_succ]; exact ih j
  | cons a t ih =>
    cases i with
    | zero => simp
    | succ j => simpa using ih j

/-- Indexing a normalized curve inside its length normalizes the indexed
raw count. -/
theorem getD_map_normEntry (n : ℕ) :
    ∀ (l : List ℕ) (i : ℕ), i < l.length →
      (l.map (normEntry n)).getD i none = normEntry n (l.getD i 0) := by
  intro l
  induction l with
  | nil => intro i h; simp at h
  | cons a t ih =>
    intro i h
    cases i with
    | zero => simp
    | succ j =>
      simp only [List.map_cons, List.getD_cons_succ]
      exact ih j (by simpa using h)

/-- Index-wise, a continuous run from a sub-state of a fixed nonempty
intermittent (no-forgiveness) state records at most as many survivors:
the continuous tracked set only ever loses candidates that the fixed
intermittent set still counts. -/
theorem runLoop_cont_le_inter (cfg : Cfg) :
    ∀ (frames : List Frame) (st stI : List ((ℕ × ℕ) × ℚ)),
      st.Sublist stI → stI ≠ [] → ∀ i : ℕ,
        (runLoop (contVariant cfg) frames st).getD i 0 ≤
          (runLoop (interVariant cfg) frames stI).getD i 0 := by
  intro frames
  induction frames with
  | nil => intro st stI _ _ i; simp [runLoop]
  | cons fr rest ih =>
    intro st stI hsub hne i
    have hI : runLoop (interVariant cfg) (fr :: rest) stI =
        (stI.filter (fun e => isWinner cfg fr e.1)).length ::
          runLoop (interVariant cfg) rest stI := by
      simp only [runLoop, pruneStep_interVariant]
      rw [if_neg (by simpa [List.length_eq_zero] using hne)]
      rfl
    have hC : runLoop (contVariant cfg) (fr :: rest) st =
        if (st.filter (fun e => isWinner cfg fr e.1)).length = 0
        then [(st.filter (fun e => isWinner cfg fr e.1)).length]
        else (st.filter (fun e => isWinner cfg fr e.1)).length ::
          runLoop (contVariant cfg) rest
            (st.filter (fun e => isWinner cfg fr e.1)) := by
      simp only [runLoop, pruneStep_contVariant]
      rfl
    have hsC : (st.filter (fun e => isWinner cfg fr e.1)).length ≤
        (stI.filter (fun e => isWinner cfg fr e.1)).length :=
      (hsub.filter _).length_le
    rw [hI, hC]
    cases i with
    | zero =>
      by_cases h0 : (st.filter (fun e => isWinner cfg fr e.1)).length = 0
      · rw [if_pos h0]
        simp [h0]
      · rw [if_neg h0]
        simpa using hsC
    | succ j =>
      by_cases h0 : (st.filter (fun e => isWinner cfg fr e.1)).length = 0
      · rw [if_pos h0]
        simp only [List.getD_cons_succ]
        cases j <;> simp
      · rw [if_neg h0]
        simp only [List.getD_cons_succ]
        exact ih _ stI ((List.filter_sublist st).trans hsub) hne j

/-! ### C9 -/

/-- C9 (counterexample): on a window with an empty seed population both
mode curves consist of the non-finite value `0/0` (modelled `none`), so
the intermittent entry is not a value `≥` the continuous entry -- there
are no values at all -- and the claim fails for such a window. -/
theorem c9_counterexample :
    (singleRun (contVariant c9xCfg) 0 2).getD 0 none = none ∧
    (singleRun (interVariant c9xCfg) 0 2).getD 0 none = none ∧
    ¬ ∃ qc qi : ℚ,
        (singleRun (contVariant c9xCfg) 0 2).getD 0 none = some qc ∧
        (singleRun (interVariant c9xCfg) 0 2).getD 0 none = some qi ∧
        qc ≤ qi := by
  refine ⟨by decide, by decide, ?_⟩
  rintro ⟨qc, qi, hc, -, -⟩
  rw [show (singleRun (contVariant c9xCfg) 0 2).getD 0 none = none by decide] at hc
  exact Option.noConfusion hc

/-- C9 (amended): for every window whose seed population is nonempty, at
every index of the nominal window both modes produce a value, and the
intermittent-mode (no forgiveness window) value is greater than or equal
to the continuous-mode value computed from the identical seed and
geometry: continuous never recounts a reformed bond, intermittent counts
every seed pair satisfying the criteria at the frame. -/
theorem c9_inter_ge_cont (cfg : Cfg) (start stop : ℕ)
    (hn : (seedPairs cfg (seedFrame cfg start)).length ≠ 0) :
    ∀ i < numSamples start stop cfg.skip,
      ∃ qc qi : ℚ,
        (singleRun (contVariant cfg) start stop).getD i none = some qc ∧
        (singleRun (interVariant cfg) start stop).getD i none = some qi ∧
        qc ≤ qi := by
  intro i hi
  set n := (seedPairs cfg (seedFrame cfg start)).length with hndef
  have hne : seedState cfg start ≠ [] := by
    intro h
    apply hn
    rw [hndef]
    have hlen := congrArg List.length h
    simp only [seedState, List.length_map, List.length_nil] at hlen
    exact hlen
  have hlenC : (paddedCurve (contVariant cfg) start stop).length
      = numSamples start stop cfg.skip := paddedCurve_length (contVariant cfg) start stop
  have hlenI : (paddedCurve (interVariant cfg) start stop).length
      = numSamples start stop cfg.skip := paddedCurve_length (interVariant cfg) start stop
  have hmapC : (singleRun (contVariant cfg) start stop).getD i none
      = normEntry n ((paddedCurve (contVariant cfg) start stop).getD i 0) :=
    getD_map_normEntry n (paddedCurve (contVariant cfg) start stop) i
      (by rw [hlenC]; exact hi)
  have hmapI : (singleRun (interVariant cfg) start stop).getD i none
      = normEntry n ((paddedCurve (interVariant cfg) start stop).getD i 0) :=
    getD_map_normEntry n (paddedCurve (interVariant cfg) start stop) i
      (by rw [hlenI]; exact hi)
  have hpadC : (paddedCurve (contVariant cfg) start stop).getD i 0
      = (rawCurve (contVariant cfg) start stop).getD i 0 :=
    getD_append_replicate_zero (rawCurve (contVariant cfg) start stop) _ i
  have hpadI : (paddedCurve (interVariant cfg) start stop).getD i 0
      = (rawCurve (interVariant cfg) start stop).getD i 0 :=
    getD_append_replicate_zero (rawCurve (interVariant cfg) start stop) _ i
  have hraw : (rawCurve (contVariant cfg) start stop).getD i 0
      ≤ (rawCurve (interVariant cfg) start stop).getD i 0 :=
    runLoop_cont_le_inter cfg (windowFrames cfg start stop)
      (seedState cfg start) (seedState cfg start) (List.Sublist.refl _) hne i
  refine ⟨(((paddedCurve (contVariant cfg) start stop).getD i 0 : ℕ) : ℚ) / (n : ℚ),
          (((paddedCurve (interVariant cfg) start stop).getD i 0 : ℕ) : ℚ) / (n : ℚ),
          ?_, ?_, ?_⟩
  · rw [hmapC, normEntry, if_neg hn]
  · rw [hmapI, normEntry, if_neg hn]
  · have hq : (((paddedCurve (contVariant cfg) start stop).getD i 0 : ℕ) : ℚ)
        ≤ (((paddedCurve (interVariant cfg) start stop).getD i 0 : ℕ) : ℚ) := by
      rw [hpadC, hpadI]
      exact_mod_cast hraw
    gcongr

/-- C9 (witness): the amended comparison instantiated on a three-frame
window whose one seed pair breaks and reforms. -/
theorem c9_witness :
    (seedPairs c9wCfg (seedFrame c9wCfg 0)).length ≠ 0 ∧
    (∀ i < numSamples 0 3 c9wCfg.skip,
      ∃ qc qi : ℚ,
        (singleRun (contVariant c9wCfg) 0 3).getD i none = some qc ∧
        (singleRun (interVariant c9wCfg) 0 3).getD i none = some qi ∧
        qc ≤ qi) :=
  ⟨by decide, c9_inter_ge_cont c9wCfg 0 3 (by decide)⟩

/-! ### C10 -/

/-- The frame loop cannot distinguish `time_cut = 0.0` from
`time_cut = None`: both make `if self.time_cut:` falsy, so the
forgiveness branch is never taken. -/
theorem runLoop_timecut_zero (cfg : Cfg) :
    ∀ (frames : List Frame) (st : List ((ℕ × ℕ) × ℚ)),
      runLoop { cfg with time_cut := some 0 } frames st =
        runLoop { cfg with time_cut := none } frames st := by
  intro frames
  induction frames with
  | nil => intro st; rfl
  | cons fr rest ih =>
    intro st
    have hp : pruneStep { cfg with time_cut := some 0 } fr st =
        pruneStep { cfg with time_cut := none } fr st := by
      unfold pruneStep
      dsimp only
      cases hbt : cfg.bond_type
      · rfl
      · norm_num [timeCutActive]
    simp only [runLoop]
    rw [hp, ih (pruneStep { cfg with time_cut := none } fr st)]
    rfl

/-- C10: running `_single_run` with `time_cut = 0` produces exactly the
same curve as running it with `time_cut = None`: the code gates the
forgiveness logic on the truthiness of `time_cut`, and `0.0` is falsy, so
no counter is consulted and no candidate is ever pruned in either case. -/
theorem c10_timecut_zero (cfg : Cfg) (start stop : ℕ) :
    singleRun { cfg with time_cut := some 0 } start stop =
      singleRun { cfg with time_cut := none } start stop := by
  have h : rawCurve { cfg with time_cut := some 0 } start stop =
      rawCurve { cfg with time_cut := none } start stop :=
    runLoop_timecut_zero cfg (windowFrames { cfg with time_cut := none } start stop)
      (seedState { cfg with time_cut := none } start)
  rw [singleRun, singleRun, paddedCurve, paddedCurve, h]
  rfl
